import Mathlib

/-!
Verification of the stream-power erosion core (`stream_power_erosion` in
`SPLM.ipynb`) against its natural-language specification.

The Python source is:

  def stream_power_erosion(z, dx, A, total_time, dt=50, U=1e-3, K=1e-4, m=0.5, n=1):
    v = -K*A**m
    dt_stable = int(0.95*dx/max(abs(v)))
    if dt > dt_stable:
      print(warning mentioning dt_stable)
      dt = dt_stable
    nt_iterations = int(total_time/dt)
    for t in range(nt_iterations):
      z[:-1] += v[1:]*dt*(abs(z[1:]-z[:-1])/dx)**n
      z[:-1] += U*dt
    return z

The shallow embedding below models numpy arrays as `List ℝ`, float
arithmetic as real arithmetic, Python `int()` as truncation toward zero,
Python `max` over an empty sequence and float division by zero as raised
exceptions (`Except.error`), and the numpy vectorized in-place updates on
the slices `z[:-1]`, `z[1:]`, `v[1:]` with 1-D broadcasting, which fails
with an exception when shapes are incompatible.  The printed stability
warning is modelled as an `Option ℤ` carrying the substituted stable
timestep.
-/

namespace SPLM

/-- The exceptions the Python code can raise: `max()` on an empty sequence
(`ValueError`); `int()` applied to the non-finite value produced by the
numpy division `0.95*dx/max(abs(v))` when `max(abs(v)) = 0` (an
`OverflowError` for `int(inf)`, a `ValueError` for `int(nan)` — numpy
division by zero warns and yields `inf`/`nan` instead of raising);
float division by zero in `int(total_time/dt)` when the effective timestep
is `0` (`ZeroDivisionError`); and a numpy shape-broadcast failure
(`ValueError` inside the update statement). -/
inductive PyError
  | emptyMax
  | nonFiniteStableTimestep
  | zeroDivision
  | broadcastError
  deriving DecidableEq

/-- Result of a successful call: the returned profile together with the
stability warning, `some dt_stable` when the warning was printed. -/
structure SPEResult where
  z : List ℝ
  warning : Option ℤ

/-- Python `int()` applied to a float: truncation toward zero. -/
noncomputable def pyInt (x : ℝ) : ℤ := if 0 ≤ x then ⌊x⌋ else ⌈x⌉

/-- `v = -K*A**m`: the incision-wave velocity field (numpy elementwise). -/
noncomputable def vField (K : ℝ) (A : List ℝ) (m : ℝ) : List ℝ :=
  A.map (fun a => -K * a ^ m)

/-- Python builtin `max` over a sequence; raises (returns `none`) on an
empty sequence. -/
def listMax : List ℝ → Option ℝ
  | [] => none
  | x :: xs => some (xs.foldl max x)

/-- numpy elementwise multiplication of two 1-D arrays with broadcasting:
equal lengths multiply pointwise, a length-1 operand is broadcast, and any
other length combination raises. -/
def npMulB (a b : List ℝ) : Option (List ℝ) :=
  if a.length = b.length then some (List.zipWith (fun x y => x * y) a b)
  else if a.length = 1 then some (b.map (fun y => a.getD 0 0 * y))
  else if b.length = 1 then some (a.map (fun x => x * b.getD 0 0))
  else none

/-- numpy in-place `t += r` for 1-D arrays: `r` must have the target's
length or length 1 (broadcast); anything else raises.  The result keeps
the target's length. -/
def npIAddB (t r : List ℝ) : Option (List ℝ) :=
  if r.length = t.length then some (List.zipWith (fun x y => x + y) t r)
  else if r.length = 1 then some (t.map (fun x => x + r.getD 0 0))
  else none

/-- One iteration of the integration loop, i.e. the two statements
`z[:-1] += v[1:]*dt*(abs(z[1:]-z[:-1])/dx)**n` and `z[:-1] += U*dt`.
The right-hand side of the first statement is evaluated entirely from the
pre-step profile before being added into the slice `z[:-1]`; the slice
`z[1:] - z[:-1]` is always well-shaped, while the multiplication by
`v[1:]` and the in-place addition broadcast and can raise. -/
noncomputable def speStep (v : List ℝ) (dx dt U n : ℝ) (z : List ℝ) :
    Except PyError (List ℝ) :=
  let front := z.dropLast
  let slope := List.zipWith (fun zn zc => (|zn - zc| / dx) ^ n) z.tail front
  match npMulB (v.tail.map (fun x => x * dt)) slope with
  | none => Except.error PyError.broadcastError
  | some rhs =>
    match npIAddB front rhs with
    | none => Except.error PyError.broadcastError
    | some front1 =>
      Except.ok ((front1.map (fun x => x + U * dt)) ++ z.drop front.length)

/-- `for t in range(k): <step>`, propagating a raised exception. -/
noncomputable def speLoop (v : List ℝ) (dx dt U n : ℝ) :
    ℕ → List ℝ → Except PyError (List ℝ)
  | 0, z => Except.ok z
  | Nat.succ k, z =>
    match speStep v dx dt U n z with
    | Except.error e => Except.error e
    | Except.ok z1 => speLoop v dx dt U n k z1

/-- `dt_stable = int(0.95*dx/max(abs(v)))` given `mv = max(abs(v))`. -/
noncomputable def dtStable (dx mv : ℝ) : ℤ := pyInt (0.95 * dx / mv)

/-- The timestep actually used by the loop: the requested `dt`, clamped to
`dt_stable` when `dt > dt_stable`. -/
noncomputable def dtEffective (dx mv dt : ℝ) : ℝ :=
  if ((dtStable dx mv : ℤ) : ℝ) < dt then ((dtStable dx mv : ℤ) : ℝ) else dt

/-- The stability warning: the printed substituted value `dt_stable` when
`dt > dt_stable`, and nothing otherwise. -/
noncomputable def warnOf (dx mv dt : ℝ) : Option ℤ :=
  if ((dtStable dx mv : ℤ) : ℝ) < dt then some (dtStable dx mv) else none

/-- The whole call `stream_power_erosion(z, dx, A, total_time, dt, U, K, m, n)`.
`max(abs(v))` raises on an empty `A`; `int(0.95*dx/max(abs(v)))` raises when
`max(abs(v)) = 0` (the numpy division yields a non-finite value that `int()`
rejects); `int(total_time/dt)` raises when the (possibly clamped) timestep
is `0`; then the loop runs `int(total_time/dt)` iterations (none when that
value is negative). -/
noncomputable def stream_power_erosion (z : List ℝ) (dx : ℝ) (A : List ℝ)
    (total_time dt U K m n : ℝ) : Except PyError SPEResult :=
  match listMax ((vField K A m).map (fun x => |x|)) with
  | none => Except.error PyError.emptyMax
  | some mv =>
    if mv = 0 then Except.error PyError.nonFiniteStableTimestep
    else if dtEffective dx mv dt = 0 then Except.error PyError.zeroDivision
    else
      match speLoop (vField K A m) dx (dtEffective dx mv dt) U n
          (pyInt (total_time / dtEffective dx mv dt)).toNat z with
      | Except.error e => Except.error e
      | Except.ok zf => Except.ok ⟨zf, warnOf dx mv dt⟩

/-! ### Helper lemmas -/

lemma length_vField (K : ℝ) (A : List ℝ) (m : ℝ) :
    (vField K A m).length = A.length := List.length_map _ _

/-- When the velocity and elevation arrays have equal length every slice in
the update statement is well-shaped and the step reduces to pointwise
operations. -/
lemma speStep_eq (v z : List ℝ) (dx dt U n : ℝ) (h : v.length = z.length) :
    speStep v dx dt U n z = Except.ok
      ((List.zipWith (fun x y => x + y) z.dropLast
          (List.zipWith (fun x y => x * y) (v.tail.map (fun x => x * dt))
            (List.zipWith (fun zn zc => (|zn - zc| / dx) ^ n) z.tail z.dropLast))).map
          (fun x => x + U * dt) ++ z.drop z.dropLast.length) := by
  have hmul : npMulB (v.tail.map (fun x => x * dt))
      (List.zipWith (fun zn zc => (|zn - zc| / dx) ^ n) z.tail z.dropLast)
      = some (List.zipWith (fun x y => x * y) (v.tail.map (fun x => x * dt))
          (List.zipWith (fun zn zc => (|zn - zc| / dx) ^ n) z.tail z.dropLast)) := by
    rw [npMulB, if_pos]
    simp [List.length_tail, h]
  have hadd : npIAddB z.dropLast
      (List.zipWith (fun x y => x * y) (v.tail.map (fun x => x * dt))
        (List.zipWith (fun zn zc => (|zn - zc| / dx) ^ n) z.tail z.dropLast))
      = some (List.zipWith (fun x y => x + y) z.dropLast
          (List.zipWith (fun x y => x * y) (v.tail.map (fun x => x * dt))
            (List.zipWith (fun zn zc => (|zn - zc| / dx) ^ n) z.tail z.dropLast))) := by
    rw [npIAddB, if_pos]
    simp [List.length_tail, h]
  rw [speStep]
  simp only [hmul, hadd]

/-- Pointwise form of one update step at a non-outlet node, for matched
shapes: the new elevation is the old one plus the erosion increment
computed from the pre-step neighbours plus the uplift increment. -/
lemma speStep_getD (v z : List ℝ) (dx dt U n : ℝ) (h : v.length = z.length)
    (i : ℕ) (hi : i + 1 < z.length) (z1 : List ℝ)
    (hz1 : speStep v dx dt U n z = Except.ok z1) :
    z1.getD i 0 = z.getD i 0 + v.getD (i + 1) 0 * dt *
      (|z.getD (i + 1) 0 - z.getD i 0| / dx) ^ n + U * dt := by
  rw [speStep_eq v z dx dt U n h, Except.ok.injEq] at hz1
  subst hz1
  have h1 : i < z.length := by omega
  have h2 : i + 1 < v.length := by omega
  rw [List.getD_eq_getElem _ _ (by simp [List.length_tail, h]; omega)]
  rw [List.getElem_append_left (by simp [List.length_tail, h]; omega)]
  rw [List.getElem_map]
  rw [List.getElem_zipWith]
  rw [List.getElem_zipWith]
  rw [List.getElem_zipWith]
  rw [List.getElem_map]
  rw [List.getElem_tail]
  rw [List.getElem_tail]
  simp only [List.getElem_dropLast]
  rw [List.getD_eq_getElem _ _ h1, List.getD_eq_getElem _ _ hi,
    List.getD_eq_getElem _ _ h2]

lemma npIAddB_length (t r u : List ℝ) (h : npIAddB t r = some u) :
    u.length = t.length := by
  rw [npIAddB] at h
  split_ifs at h with h1 h2
  · rw [Option.some.injEq] at h
    subst h
    simp [h1]
  · rw [Option.some.injEq] at h
    subst h
    simp

/-- Every successful step — including the irregular broadcasting cases —
writes only into the slice `z[:-1]`: the length and the final (outlet)
entry of the profile are preserved. -/
lemma speStep_ok_inv (v : List ℝ) (dx dt U n : ℝ) (z z1 : List ℝ)
    (h : speStep v dx dt U n z = Except.ok z1) :
    z1.length = z.length ∧ z1[z.length - 1]? = z[z.length - 1]? := by
  rw [speStep] at h
  split at h
  · exact absurd h (by simp)
  · rename_i rhs hm
    split at h
    · exact absurd h (by simp)
    · rename_i front1 ha
      rw [Except.ok.injEq] at h
      subst h
      have hf1 : front1.length = z.dropLast.length := npIAddB_length _ _ _ ha
      have hlen : ((front1.map (fun x => x + U * dt)) ++
          z.drop z.dropLast.length).length = z.length := by
        simp [hf1]
      refine ⟨hlen, ?_⟩
      rw [List.getElem?_append_right (by simp [hf1])]
      rw [List.getElem?_drop]
      congr 1
      simp [hf1]

/-- A successful run of the loop preserves the length and the outlet
entry of the profile. -/
lemma speLoop_ok_inv (v : List ℝ) (dx dt U n : ℝ) (k : ℕ) (z zf : List ℝ)
    (h : speLoop v dx dt U n k z = Except.ok zf) :
    zf.length = z.length ∧ zf[z.length - 1]? = z[z.length - 1]? := by
  induction k generalizing z with
  | zero =>
    rw [speLoop, Except.ok.injEq] at h
    subst h
    exact ⟨rfl, rfl⟩
  | succ k ih =>
    rw [speLoop] at h
    split at h
    · exact absurd h (by simp)
    · rename_i z1 hstep
      obtain ⟨hl1, hg1⟩ := speStep_ok_inv v dx dt U n z z1 hstep
      obtain ⟨hl2, hg2⟩ := ih z1 h
      refine ⟨hl2.trans hl1, ?_⟩
      rw [hl1] at hl2 hg2
      exact hg2.trans hg1

/-- For matched shapes the step always succeeds and keeps the length. -/
lemma speStep_ok_of_length (v z : List ℝ) (dx dt U n : ℝ)
    (h : v.length = z.length) :
    ∃ z1, speStep v dx dt U n z = Except.ok z1 ∧ z1.length = z.length := by
  refine ⟨_, speStep_eq v z dx dt U n h, ?_⟩
  simp [List.length_tail, h]

/-- For matched shapes the whole loop always succeeds and keeps the
length. -/
lemma speLoop_ok_of_length (v z : List ℝ) (dx dt U n : ℝ) (k : ℕ)
    (h : v.length = z.length) :
    ∃ zf, speLoop v dx dt U n k z = Except.ok zf ∧ zf.length = z.length := by
  induction k generalizing z with
  | zero => exact ⟨z, rfl, rfl⟩
  | succ k ih =>
    obtain ⟨z1, hz1, hl1⟩ := speStep_ok_of_length v z dx dt U n h
    obtain ⟨zf, hzf, hlf⟩ := ih z1 (by rw [hl1, h])
    refine ⟨zf, ?_, hlf.trans hl1⟩
    rw [speLoop, hz1]
    exact hzf

/-- `int()` agrees with the floor on non-negative arguments. -/
lemma pyInt_of_nonneg (x : ℝ) (h : 0 ≤ x) : pyInt x = ⌊x⌋ := if_pos h

/-- `int()` of an argument below `1` is non-positive, so `range` of it is
empty. -/
lemma pyInt_nonpos (x : ℝ) (h : x < 1) : pyInt x ≤ 0 := by
  rw [pyInt]
  split_ifs with h0
  · have h1 : ⌊x⌋ < 1 := Int.floor_lt.mpr (by push_cast; exact h)
    omega
  · exact Int.ceil_le.mpr (by push_cast; linarith [lt_of_not_le h0])

/-- Unfolding the call on the success path of the integration loop. -/
lemma stream_power_erosion_of_loop_ok (z : List ℝ) (dx : ℝ) (A : List ℝ)
    (total_time dt U K m n mv : ℝ) (zf : List ℝ)
    (hmv : listMax ((vField K A m).map (fun x => |x|)) = some mv)
    (hmv0 : mv ≠ 0) (hdt : dtEffective dx mv dt ≠ 0)
    (hloop : speLoop (vField K A m) dx (dtEffective dx mv dt) U n
      (pyInt (total_time / dtEffective dx mv dt)).toNat z = Except.ok zf) :
    stream_power_erosion z dx A total_time dt U K m n =
      Except.ok ⟨zf, warnOf dx mv dt⟩ := by
  rw [stream_power_erosion]
  simp only [hmv]
  rw [if_neg hmv0, if_neg hdt, hloop]

/-- Unfolding the call when the integration loop raises. -/
lemma stream_power_erosion_of_loop_err (z : List ℝ) (dx : ℝ) (A : List ℝ)
    (total_time dt U K m n mv : ℝ) (e : PyError)
    (hmv : listMax ((vField K A m).map (fun x => |x|)) = some mv)
    (hmv0 : mv ≠ 0) (hdt : dtEffective dx mv dt ≠ 0)
    (hloop : speLoop (vField K A m) dx (dtEffective dx mv dt) U n
      (pyInt (total_time / dtEffective dx mv dt)).toNat z = Except.error e) :
    stream_power_erosion z dx A total_time dt U K m n = Except.error e := by
  rw [stream_power_erosion]
  simp only [hmv]
  rw [if_neg hmv0, if_neg hdt, hloop]

/-- Inversion: a successful call went through the stability analysis with a
non-zero maximal velocity and a non-zero effective timestep, and the
returned profile is the result of the integration loop. -/
lemma stream_power_erosion_ok (z : List ℝ) (dx : ℝ) (A : List ℝ)
    (total_time dt U K m n : ℝ) (r : SPEResult)
    (hr : stream_power_erosion z dx A total_time dt U K m n = Except.ok r) :
    ∃ mv, listMax ((vField K A m).map (fun x => |x|)) = some mv ∧ mv ≠ 0 ∧
      dtEffective dx mv dt ≠ 0 ∧
      speLoop (vField K A m) dx (dtEffective dx mv dt) U n
        (pyInt (total_time / dtEffective dx mv dt)).toNat z = Except.ok r.z ∧
      r.warning = warnOf dx mv dt := by
  rw [stream_power_erosion] at hr
  split at hr
  · exact absurd hr (by simp)
  · rename_i mv hml
    split_ifs at hr with h1 h2
    split at hr
    · exact absurd hr (by simp)
    · rename_i zf hloop
      rw [Except.ok.injEq] at hr
      subst hr
      exact ⟨mv, hml, h1, h2, hloop, rfl⟩

/-- With `K = 0` every entry of the velocity field is `0`. -/
lemma vField_zero_getD (A : List ℝ) (m : ℝ) (j : ℕ) :
    (vField 0 A m).getD j 0 = 0 := by
  rw [vField]
  rcases lt_or_ge j A.length with hj | hj
  · rw [List.getD_eq_getElem _ _ (by simpa using hj), List.getElem_map]
    ring
  · rw [List.getD_eq_default _ _ (by simpa using hj)]

/-- With a zero velocity field the erosion increment vanishes and `k`
iterations add exactly `U * (k * dt)` to every non-outlet node, leaving
the outlet untouched. -/
lemma speLoop_uplift (A z : List ℝ) (dx dt U m n : ℝ) (k : ℕ)
    (h : A.length = z.length) :
    ∃ zf, speLoop (vField 0 A m) dx dt U n k z = Except.ok zf ∧
      zf.length = z.length ∧
      (∀ i, i + 1 < z.length → zf.getD i 0 = z.getD i 0 + U * (k * dt)) ∧
      zf[z.length - 1]? = z[z.length - 1]? := by
  induction k generalizing z with
  | zero =>
    refine ⟨z, rfl, rfl, ?_, rfl⟩
    intro i hi
    simp
  | succ k ih =>
    have hv : (vField 0 A m).length = z.length := by rw [length_vField, h]
    obtain ⟨z1, hz1, hl1⟩ := speStep_ok_of_length _ z dx dt U n hv
    obtain ⟨zf, hzf, hlf, hfor, hlast⟩ := ih z1 (by rw [hl1, h])
    have hstep : ∀ i, i + 1 < z.length → z1.getD i 0 = z.getD i 0 + U * dt := by
      intro i hi
      rw [speStep_getD _ z dx dt U n hv i hi z1 hz1, vField_zero_getD]
      ring
    refine ⟨zf, ?_, hlf.trans hl1, ?_, ?_⟩
    · rw [speLoop, hz1]
      exact hzf
    · intro i hi
      rw [hl1] at hfor
      rw [hfor i hi, hstep i hi]
      push_cast
      ring
    · obtain ⟨-, hg1⟩ := speStep_ok_inv _ dx dt U n z z1 hz1
      rw [hl1] at hlast
      exact hlast.trans hg1

/-! ### Concrete evaluations used to instantiate the theorems -/

lemma dtStable_eval_nine : dtStable 10 1 = 9 := by
  rw [dtStable, pyInt, if_pos (by norm_num), Int.floor_eq_iff]
  norm_num

lemma dtStable_eval_zero : dtStable 1 10 = 0 := by
  rw [dtStable, pyInt, if_pos (by norm_num), Int.floor_eq_iff]
  norm_num

lemma dtEffective_eval_le (dt : ℝ) (h : ¬ ((9 : ℝ) < dt)) :
    dtEffective 10 1 dt = dt := by
  rw [dtEffective, dtStable_eval_nine, if_neg (by exact_mod_cast h)]

lemma warnOf_eval_none (dt : ℝ) (h : ¬ ((9 : ℝ) < dt)) :
    warnOf 10 1 dt = none := by
  rw [warnOf, dtStable_eval_nine, if_neg (by exact_mod_cast h)]

lemma listMax_pair_one : listMax ((vField 1 [1, 1] 1).map (fun x => |x|)) = some 1 := by
  norm_num [vField, listMax, Real.rpow_one]

lemma listMax_single_one : listMax ((vField 1 [1] 1).map (fun x => |x|)) = some 1 := by
  norm_num [vField, listMax, Real.rpow_one]

lemma eval_singleton_run :
    stream_power_erosion [3] 10 [1] 0 1 0 1 1 1 = Except.ok ⟨[3], none⟩ := by
  have hdt : dtEffective 10 1 1 = 1 := dtEffective_eval_le 1 (by norm_num)
  have hloop : speLoop (vField 1 [1] 1) 10 (dtEffective 10 1 1) 0 1
      (pyInt ((0 : ℝ) / dtEffective 10 1 1)).toNat [3] = Except.ok [3] := by
    rw [hdt]
    have h0 : pyInt ((0 : ℝ) / 1) = 0 := by
      rw [pyInt, if_pos (by norm_num)]
      norm_num
    rw [h0]
    rfl
  have hres := stream_power_erosion_of_loop_ok [3] 10 [1] 0 1 0 1 1 1 1 [3]
    listMax_single_one (by norm_num) (by rw [hdt]; norm_num) hloop
  rw [hres, warnOf_eval_none 1 (by norm_num)]

/-! ### The claims -/

/-- Claim C1: for matched profile/area shapes, one integration step maps
`z` to `z1` with `z1[i] = z[i] + v[i+1]*dt*(|z[i+1]-z[i]|/dx)^n + U*dt`
at every non-outlet index `i`, where `v = -K*A^m`, every neighbour value
being read from the pre-step profile, and both the erosion and the uplift
terms being applied to the whole non-outlet range within the step. -/
theorem claim_C1 (z A : List ℝ) (dx dt U K m n : ℝ)
    (hlen : A.length = z.length) (_hN : 1 ≤ z.length) :
    ∃ z1, speStep (vField K A m) dx dt U n z = Except.ok z1 ∧
      z1.length = z.length ∧
      (∀ i, i + 1 < z.length →
        z1.getD i 0 = z.getD i 0 + (vField K A m).getD (i + 1) 0 * dt *
          (|z.getD (i + 1) 0 - z.getD i 0| / dx) ^ n + U * dt) := by
  have hv : (vField K A m).length = z.length := by rw [length_vField, hlen]
  obtain ⟨z1, hz1, hl⟩ := speStep_ok_of_length _ z dx dt U n hv
  exact ⟨z1, hz1, hl, fun i hi => speStep_getD _ z dx dt U n hv i hi z1 hz1⟩

theorem claim_C1_witness :
    ∃ z1, speStep (vField 1 [1, 1] 1) 2 3 4 1 [1, 0] = Except.ok z1 ∧
      z1.getD 0 0 = ([1, 0] : List ℝ).getD 0 0 +
        (vField 1 [1, 1] 1).getD 1 0 * 3 *
          (|([1, 0] : List ℝ).getD 1 0 - ([1, 0] : List ℝ).getD 0 0| / 2) ^ (1 : ℝ) + 4 * 3 := by
  obtain ⟨z1, hz1, -, hfor⟩ := claim_C1 [1, 0] [1, 1] 2 3 4 1 1 1 rfl (by norm_num)
  exact ⟨z1, hz1, hfor 0 (by norm_num)⟩

/-- Claim C3: the outlet node (last index) of the returned profile always
equals the input's outlet elevation, for every parameter combination on
which the call returns; the profile length is preserved as well. -/
theorem claim_C3 (z A : List ℝ) (dx total_time dt U K m n : ℝ)
    (_hN : 1 ≤ z.length) (r : SPEResult)
    (hr : stream_power_erosion z dx A total_time dt U K m n = Except.ok r) :
    r.z.length = z.length ∧
      r.z.getD (z.length - 1) 0 = z.getD (z.length - 1) 0 := by
  obtain ⟨mv, hml, h1, h2, hloop, hw⟩ :=
    stream_power_erosion_ok z dx A total_time dt U K m n r hr
  obtain ⟨hl, hg⟩ := speLoop_ok_inv _ _ _ _ _ _ _ _ hloop
  refine ⟨hl, ?_⟩
  rw [List.getD_eq_getElem?_getD, List.getD_eq_getElem?_getD, hg]

theorem claim_C3_witness :
    (SPEResult.mk [3] none).z.length = ([3] : List ℝ).length ∧
      (SPEResult.mk [3] none).z.getD 0 0 = ([3] : List ℝ).getD 0 0 := by
  have h := claim_C3 [3] [1] 10 0 1 0 1 1 1 (by norm_num) ⟨[3], none⟩
    eval_singleton_run
  exact h

/-- Claim C4: whenever the computed iteration count is zero — in
particular for `total_time = 0` — the call returns the input profile
unchanged (no-op law). -/
theorem claim_C4 (z A : List ℝ) (dx total_time dt U K m n mv : ℝ)
    (hmv : listMax ((vField K A m).map (fun x => |x|)) = some mv)
    (hmv0 : mv ≠ 0) (hdt : dtEffective dx mv dt ≠ 0)
    (hq : ⌊total_time / dtEffective dx mv dt⌋ = 0) :
    stream_power_erosion z dx A total_time dt U K m n =
      Except.ok ⟨z, warnOf dx mv dt⟩ := by
  have h0 : (pyInt (total_time / dtEffective dx mv dt)).toNat = 0 := by
    rw [Int.toNat_eq_zero]
    exact pyInt_nonpos _ (Set.mem_Ico.mp (Int.floor_eq_zero_iff.mp hq)).2
  exact stream_power_erosion_of_loop_ok z dx A total_time dt U K m n mv z
    hmv hmv0 hdt (by rw [h0]; rfl)

theorem claim_C4_witness :
    stream_power_erosion [1, 0] 10 [1, 1] 0 1 0 1 1 1 =
      Except.ok ⟨[1, 0], warnOf 10 1 1⟩ := by
  have hdt : dtEffective 10 1 1 = 1 := dtEffective_eval_le 1 (by norm_num)
  exact claim_C4 [1, 0] [1, 1] 10 0 1 0 1 1 1 1 listMax_pair_one (by norm_num)
    (by rw [hdt]; norm_num) (by rw [hdt]; norm_num)

/-- Claim C5: when the maximal absolute incision velocity is exactly zero
(for instance `K = 0`, or all drainage areas zero with `m > 0`), the call
raises an error to the caller — concretely the `OverflowError`/`ValueError`
of `int()` applied to the non-finite stable-timestep division — instead of
running with an infinite or NaN stable timestep. -/
theorem claim_C5 (z A : List ℝ) (dx total_time dt U K m n : ℝ)
    (hmv : listMax ((vField K A m).map (fun x => |x|)) = some 0) :
    stream_power_erosion z dx A total_time dt U K m n =
      Except.error PyError.nonFiniteStableTimestep := by
  rw [stream_power_erosion]
  simp only [hmv]
  simp

theorem claim_C5_witness :
    stream_power_erosion [1] 1 [1] 0 50 0 0 1 1 =
      Except.error PyError.nonFiniteStableTimestep := by
  have hmv : listMax ((vField 0 [1] 1).map (fun x => |x|)) = some 0 := by
    norm_num [vField, listMax, Real.rpow_one]
  exact claim_C5 [1] [1] 1 0 50 0 0 1 1 hmv

/-- Claim C9: the erosion increment at a node depends on the neighbouring
elevations only through `|z[i+1] - z[i]|`: negating the local elevation
difference (replacing `z[i+1]` by `2*z[i] - z[i+1]`) yields exactly the
same updated value at node `i`. -/
theorem claim_C9 (z A : List ℝ) (dx dt U K m n : ℝ)
    (hlen : A.length = z.length) (i : ℕ) (hi : i + 1 < z.length) :
    ∃ z1 z2,
      speStep (vField K A m) dx dt U n z = Except.ok z1 ∧
      speStep (vField K A m) dx dt U n
        (z.set (i + 1) (2 * z.getD i 0 - z.getD (i + 1) 0)) = Except.ok z2 ∧
      z1.getD i 0 = z2.getD i 0 := by
  have hv : (vField K A m).length = z.length := by rw [length_vField, hlen]
  have hlz : (z.set (i + 1) (2 * z.getD i 0 - z.getD (i + 1) 0)).length
      = z.length := List.length_set z _ _
  obtain ⟨z1, hz1, hl1⟩ := speStep_ok_of_length _ z dx dt U n hv
  obtain ⟨z2, hz2, hl2⟩ :=
    speStep_ok_of_length (vField K A m)
      (z.set (i + 1) (2 * z.getD i 0 - z.getD (i + 1) 0))
      dx dt U n (by rw [hlz]; exact hv)
  refine ⟨z1, z2, hz1, hz2, ?_⟩
  rw [speStep_getD _ z dx dt U n hv i hi z1 hz1]
  rw [speStep_getD (vField K A m) (z.set (i + 1) (2 * z.getD i 0 - z.getD (i + 1) 0))
    dx dt U n (by rw [hlz]; exact hv) i (by omega) z2 hz2]
  have e1 : (z.set (i + 1) (2 * z.getD i 0 - z.getD (i + 1) 0)).getD i 0
      = z.getD i 0 := by
    rw [List.getD_eq_getElem _ _ (by rw [hlz]; omega),
      List.getElem_set_ne (by omega), ← List.getD_eq_getElem _ _ (by omega)]
  have e2 : (z.set (i + 1) (2 * z.getD i 0 - z.getD (i + 1) 0)).getD (i + 1) 0
      = 2 * z.getD i 0 - z.getD (i + 1) 0 := by
    rw [List.getD_eq_getElem _ _ (by rw [hlz]; omega), List.getElem_set_self]
  rw [e1, e2]
  have e3 : |2 * z.getD i 0 - z.getD (i + 1) 0 - z.getD i 0|
      = |z.getD (i + 1) 0 - z.getD i 0| := by
    rw [show 2 * z.getD i 0 - z.getD (i + 1) 0 - z.getD i 0
        = z.getD i 0 - z.getD (i + 1) 0 by ring, abs_sub_comm]
  rw [e3]

theorem claim_C9_witness :
    ∃ z1 z2, speStep (vField 1 [1, 1] 1) 2 3 4 1 [1, 0] = Except.ok z1 ∧
      speStep (vField 1 [1, 1] 1) 2 3 4 1
        (([1, 0] : List ℝ).set 1
          (2 * ([1, 0] : List ℝ).getD 0 0 - ([1, 0] : List ℝ).getD 1 0)) = Except.ok z2 ∧
      z1.getD 0 0 = z2.getD 0 0 :=
  claim_C9 [1, 0] [1, 1] 2 3 4 1 1 1 rfl 0 (by norm_num)

/-- Claim C10: for a profile of length exactly one (the outlet is the only
node), whenever the call returns without raising, the returned profile is
the input profile unchanged: every update acts on the empty non-outlet
slice. -/
theorem claim_C10 (z A : List ℝ) (dx total_time dt U K m n : ℝ)
    (hz : z.length = 1) (r : SPEResult)
    (hr : stream_power_erosion z dx A total_time dt U K m n = Except.ok r) :
    r.z = z := by
  obtain ⟨mv, hml, h1, h2, hloop, hw⟩ :=
    stream_power_erosion_ok z dx A total_time dt U K m n r hr
  obtain ⟨hl, hg⟩ := speLoop_ok_inv _ _ _ _ _ _ _ _ hloop
  apply List.ext_getElem?
  intro i
  rcases Nat.eq_zero_or_pos i with rfl | hi
  · simpa [hz] using hg
  · rw [List.getElem?_eq_none (by omega), List.getElem?_eq_none (by omega)]

theorem claim_C10_witness : (SPEResult.mk [3] none).z = [3] :=
  claim_C10 [3] [1] 10 0 1 0 1 1 1 rfl ⟨[3], none⟩ eval_singleton_run

lemma listMax_pair_ten : listMax ((vField 1 [10, 10] 1).map (fun x => |x|)) = some 10 := by
  norm_num [vField, listMax, Real.rpow_one]

/-- Claim C2, counterexample: with `dx = 1` and `max|v| = 10` the requested
`dt = 50` exceeds the CFL bound `0.95*dx/max|v| = 0.095`, yet the call does
not proceed with the floored bound and a warning — the floored bound is `0`,
so the clamped timestep is `0` and the call aborts with the
`ZeroDivisionError` of `int(total_time/dt)`. -/
theorem claim_C2_cex :
    (0.95 * 1 / 10 < (50 : ℝ)) ∧
      stream_power_erosion [1, 0] 1 [10, 10] 100 50 0 1 1 1 =
        Except.error PyError.zeroDivision := by
  refine ⟨by norm_num, ?_⟩
  have hdt : dtEffective 1 10 50 = 0 := by
    rw [dtEffective, dtStable_eval_zero, if_pos (by norm_num)]
    norm_num
  rw [stream_power_erosion]
  simp only [listMax_pair_ten]
  rw [if_neg (by norm_num), if_pos hdt]

/-- Claim C2, amended: when the requested `dt` exceeds the truncated bound
`int(0.95*dx/max|v|)` and that bound is at least `1` (and `total_time ≥ 0`,
and the array shapes match), the call runs with effective timestep exactly
`floor(0.95*dx/max|v|)`, iterates `floor(total_time/floor(0.95*dx/max|v|))`
times, and returns successfully with a warning carrying the substituted
value.  (When the truncated bound is `0` the call instead aborts, see the
counterexample.) -/
theorem claim_C2_amended (z A : List ℝ) (dx total_time dt U K m n mv : ℝ)
    (hmv : listMax ((vField K A m).map (fun x => |x|)) = some mv)
    (hst : 1 ≤ dtStable dx mv)
    (hgt : ((dtStable dx mv : ℤ) : ℝ) < dt)
    (htt : 0 ≤ total_time)
    (hlen : A.length = z.length) :
    ∃ zf, stream_power_erosion z dx A total_time dt U K m n =
        Except.ok ⟨zf, some ⌊0.95 * dx / mv⌋⟩ ∧
      speLoop (vField K A m) dx ((⌊0.95 * dx / mv⌋ : ℤ) : ℝ) U n
        (⌊total_time / ((⌊0.95 * dx / mv⌋ : ℤ) : ℝ)⌋).toNat z = Except.ok zf := by
  have harg : 0 ≤ 0.95 * dx / mv := by
    by_contra hneg
    push_neg at hneg
    have hle : dtStable dx mv ≤ 0 := by
      rw [dtStable, pyInt, if_neg (not_le.mpr hneg)]
      exact Int.ceil_le.mpr (by push_cast; linarith)
    omega
  have hfl : dtStable dx mv = ⌊0.95 * dx / mv⌋ := by
    rw [dtStable, pyInt_of_nonneg _ harg]
  have hmv0 : mv ≠ 0 := by
    intro h0
    subst h0
    rw [div_zero, Int.floor_zero] at hfl
    omega
  have hcast : (1 : ℝ) ≤ ((dtStable dx mv : ℤ) : ℝ) := by exact_mod_cast hst
  have hdtE : dtEffective dx mv dt = ((dtStable dx mv : ℤ) : ℝ) := by
    rw [dtEffective, if_pos hgt]
  have hdt0 : dtEffective dx mv dt ≠ 0 := by
    rw [hdtE]
    linarith
  have hw : warnOf dx mv dt = some ⌊0.95 * dx / mv⌋ := by
    rw [warnOf, if_pos hgt, hfl]
  have hqn : 0 ≤ total_time / dtEffective dx mv dt := by
    apply div_nonneg htt
    rw [hdtE]
    linarith
  obtain ⟨zf, hloop, hlf⟩ := speLoop_ok_of_length (vField K A m) z dx
    (dtEffective dx mv dt) U n (pyInt (total_time / dtEffective dx mv dt)).toNat
    (by rw [length_vField, hlen])
  refine ⟨zf, ?_, ?_⟩
  · have hres := stream_power_erosion_of_loop_ok z dx A total_time dt U K m n mv zf
      hmv hmv0 hdt0 hloop
    rw [hres, hw]
  · rw [pyInt_of_nonneg _ hqn, hdtE, hfl] at hloop
    exact hloop

theorem claim_C2_amended_witness :
    ∃ zf, stream_power_erosion [1, 0] 10 [1, 1] 0 50 0 1 1 1 =
        Except.ok ⟨zf, some ⌊(0.95 : ℝ) * 10 / 1⌋⟩ := by
  obtain ⟨zf, h1, -⟩ := claim_C2_amended [1, 0] [1, 1] 10 0 50 0 1 1 1 1
    listMax_pair_one (by rw [dtStable_eval_nine]; norm_num)
    (by rw [dtStable_eval_nine]; norm_num) le_rfl rfl
  exact ⟨zf, h1⟩

/-- Claim C6, counterexample: with `K = 0` the maximal absolute velocity is
zero, so the call raises (the `int()` of the non-finite stable-timestep
division) and returns no profile at all — it does not return the input
profile plus `U * (iterations * dt)`. -/
theorem claim_C6_cex :
    stream_power_erosion [1, 0] 1 [1, 1] 100 50 1 0 1 1 =
      Except.error PyError.nonFiniteStableTimestep := by
  have hmv : listMax ((vField 0 [1, 1] 1).map (fun x => |x|)) = some 0 := by
    norm_num [vField, listMax, Real.rpow_one]
  rw [stream_power_erosion]
  simp only [hmv]
  simp

/-- Claim C6, amended: with `K = 0` the call itself raises (see the
counterexample); the uplift-only law holds for the integration loop: since
`v = -0*A^m` vanishes identically, `k` update steps return successfully and
add exactly `U * (k * dt)` to every non-outlet node, leaving the outlet
unchanged. -/
theorem claim_C6_amended (z A : List ℝ) (dx dt U m n : ℝ) (k : ℕ)
    (hlen : A.length = z.length) (_hN : 1 ≤ z.length) :
    ∃ zf, speLoop (vField 0 A m) dx dt U n k z = Except.ok zf ∧
      zf.length = z.length ∧
      (∀ i, i + 1 < z.length → zf.getD i 0 = z.getD i 0 + U * (k * dt)) ∧
      zf.getD (z.length - 1) 0 = z.getD (z.length - 1) 0 := by
  obtain ⟨zf, h1, h2, h3, h4⟩ := speLoop_uplift A z dx dt U m n k hlen
  refine ⟨zf, h1, h2, h3, ?_⟩
  rw [List.getD_eq_getElem?_getD, List.getD_eq_getElem?_getD, h4]

theorem claim_C6_amended_witness :
    ∃ zf, speLoop (vField 0 [1, 1] 1) 1 50 1 1 2 [1, 0] = Except.ok zf ∧
      zf.getD 0 0 = ([1, 0] : List ℝ).getD 0 0 + 1 * (((2 : ℕ) : ℝ) * 50) := by
  obtain ⟨zf, h1, -, h3, -⟩ :=
    claim_C6_amended [1, 0] [1, 1] 1 50 1 1 1 2 rfl (by norm_num)
  exact ⟨zf, h1, h3 0 (by norm_num)⟩

/-- Claim C7, counterexample: with a non-positive requested timestep
`dt = 0` (and non-negative `total_time`) the call does not return the
unmodified profile as a no-op — `int(total_time/dt)` raises
`ZeroDivisionError`. -/
theorem claim_C7_cex :
    stream_power_erosion [1, 0] 10 [1, 1] 100 0 0 1 1 1 =
      Except.error PyError.zeroDivision := by
  have hdt : dtEffective 10 1 0 = 0 := dtEffective_eval_le 0 (by norm_num)
  rw [stream_power_erosion]
  simp only [listMax_pair_one]
  rw [if_neg (by norm_num), if_pos hdt]

/-- Claim C7, amended: when the effective timestep is negative with
non-negative `total_time` (or positive with negative `total_time`) the
iteration count is non-positive and the call is a no-op returning the
unmodified profile; but a zero timestep raises `ZeroDivisionError` instead
(see the counterexample), and a negative timestep together with a negative
`total_time` yields a positive iteration count. -/
theorem claim_C7_amended (z A : List ℝ) (dx total_time dt U K m n mv : ℝ)
    (hmv : listMax ((vField K A m).map (fun x => |x|)) = some mv)
    (hmv0 : mv ≠ 0) (hdt : dtEffective dx mv dt ≠ 0)
    (hsign : (dtEffective dx mv dt < 0 ∧ 0 ≤ total_time) ∨
      (0 < dtEffective dx mv dt ∧ total_time < 0)) :
    stream_power_erosion z dx A total_time dt U K m n =
      Except.ok ⟨z, warnOf dx mv dt⟩ := by
  have h0 : (pyInt (total_time / dtEffective dx mv dt)).toNat = 0 := by
    rw [Int.toNat_eq_zero]
    apply pyInt_nonpos
    have hle : total_time / dtEffective dx mv dt ≤ 0 := by
      apply div_nonpos_iff.mpr
      rcases hsign with ⟨hneg, htt⟩ | ⟨hpos, htt⟩
      · exact Or.inl ⟨htt, hneg.le⟩
      · exact Or.inr ⟨htt.le, hpos.le⟩
    linarith
  exact stream_power_erosion_of_loop_ok z dx A total_time dt U K m n mv z
    hmv hmv0 hdt (by rw [h0]; rfl)

theorem claim_C7_amended_witness :
    stream_power_erosion [1, 0] 10 [1, 1] 100 (-5) 0 1 1 1 =
      Except.ok ⟨[1, 0], warnOf 10 1 (-5)⟩ := by
  have hdt : dtEffective 10 1 (-5) = -5 := dtEffective_eval_le (-5) (by norm_num)
  exact claim_C7_amended [1, 0] [1, 1] 10 100 (-5) 0 1 1 1 1 listMax_pair_one
    (by norm_num) (by rw [hdt]; norm_num)
    (Or.inl ⟨by rw [hdt]; norm_num, by norm_num⟩)

/-- Claim C8, counterexample: the code performs no shape validation — with
profile length `1` and area length `2` and a zero iteration count the call
completes successfully (no `ShapeMismatchError`, no error at all) and
returns the profile. -/
theorem claim_C8_cex :
    ([5] : List ℝ).length ≠ ([1, 1] : List ℝ).length ∧
      stream_power_erosion [5] 10 [1, 1] 0 1 0 1 1 1 = Except.ok ⟨[5], none⟩ := by
  refine ⟨by norm_num, ?_⟩
  have hdt : dtEffective 10 1 1 = 1 := dtEffective_eval_le 1 (by norm_num)
  have hloop : speLoop (vField 1 [1, 1] 1) 10 (dtEffective 10 1 1) 0 1
      (pyInt ((0 : ℝ) / dtEffective 10 1 1)).toNat [5] = Except.ok [5] := by
    rw [hdt]
    have h0 : pyInt ((0 : ℝ) / 1) = 0 := by
      rw [pyInt, if_pos (by norm_num)]
      norm_num
    rw [h0]
    rfl
  have hres := stream_power_erosion_of_loop_ok [5] 10 [1, 1] 0 1 0 1 1 1 1 [5]
    listMax_pair_one (by norm_num) (by rw [hdt]; norm_num) hloop
  rw [hres, warnOf_eval_none 1 (by norm_num)]

/-- Claim C8, amended: no shape check exists and no `ShapeMismatchError` is
raised before the Stability Analyzer — the analyzer always runs first.  When
the sliced lengths `len(A)-1` and `len(z)-1` differ, `len(A)-1` is not `1`,
and at least one iteration runs, the first update step raises a numpy
broadcast error from inside the integrator, before any node has been
written (the model returns the error with no partially mutated profile);
with a zero iteration count the call instead succeeds, see the
counterexample. -/
theorem claim_C8_amended (z A : List ℝ) (dx total_time dt U K m n mv : ℝ)
    (hmv : listMax ((vField K A m).map (fun x => |x|)) = some mv)
    (hmv0 : mv ≠ 0) (hdt : dtEffective dx mv dt ≠ 0)
    (hnt : 1 ≤ pyInt (total_time / dtEffective dx mv dt))
    (hq : A.length - 1 ≠ z.length - 1) (hq1 : A.length - 1 ≠ 1) :
    stream_power_erosion z dx A total_time dt U K m n =
      Except.error PyError.broadcastError := by
  have hal : ((vField K A m).tail.map (fun x => x * dtEffective dx mv dt)).length
      = A.length - 1 := by
    simp [List.length_tail, length_vField]
  have hsl : (List.zipWith (fun zn zc => (|zn - zc| / dx) ^ n) z.tail z.dropLast).length
      = z.length - 1 := by
    simp [List.length_tail]
  have hstep : speStep (vField K A m) dx (dtEffective dx mv dt) U n z =
      Except.error PyError.broadcastError := by
    rcases eq_or_ne (z.length - 1) 1 with hp1 | hp1
    · have hmul : npMulB ((vField K A m).tail.map (fun x => x * dtEffective dx mv dt))
          (List.zipWith (fun zn zc => (|zn - zc| / dx) ^ n) z.tail z.dropLast)
          = some (((vField K A m).tail.map (fun x => x * dtEffective dx mv dt)).map
              (fun x => x * (List.zipWith (fun zn zc => (|zn - zc| / dx) ^ n)
                z.tail z.dropLast).getD 0 0)) := by
        rw [npMulB, if_neg (by rw [hal, hsl]; omega), if_neg (by rw [hal]; omega),
          if_pos (by rw [hsl]; omega)]
      have hadd : npIAddB z.dropLast
          (((vField K A m).tail.map (fun x => x * dtEffective dx mv dt)).map
            (fun x => x * (List.zipWith (fun zn zc => (|zn - zc| / dx) ^ n)
              z.tail z.dropLast).getD 0 0)) = none := by
        rw [npIAddB, if_neg (by rw [List.length_map, hal, List.length_dropLast]; omega),
          if_neg (by rw [List.length_map, hal]; omega)]
      rw [speStep]
      simp only [hmul, hadd]
    · have hmul : npMulB ((vField K A m).tail.map (fun x => x * dtEffective dx mv dt))
          (List.zipWith (fun zn zc => (|zn - zc| / dx) ^ n) z.tail z.dropLast)
          = none := by
        rw [npMulB, if_neg (by rw [hal, hsl]; omega), if_neg (by rw [hal]; omega),
          if_neg (by rw [hsl]; omega)]
      rw [speStep]
      simp only [hmul]
  obtain ⟨k, hk⟩ : ∃ k, (pyInt (total_time / dtEffective dx mv dt)).toNat = k + 1 :=
    ⟨(pyInt (total_time / dtEffective dx mv dt)).toNat - 1, by omega⟩
  apply stream_power_erosion_of_loop_err z dx A total_time dt U K m n mv
    PyError.broadcastError hmv hmv0 hdt
  rw [hk, speLoop, hstep]

theorem claim_C8_amended_witness :
    stream_power_erosion [1, 0, 0] 10 [1, 1, 1, 1, 1] 5 1 0 1 1 1 =
      Except.error PyError.broadcastError := by
  have hmv : listMax ((vField 1 [1, 1, 1, 1, 1] 1).map (fun x => |x|)) = some 1 := by
    norm_num [vField, listMax, Real.rpow_one]
  have hdt : dtEffective 10 1 1 = 1 := dtEffective_eval_le 1 (by norm_num)
  have hnt : pyInt ((5 : ℝ) / dtEffective 10 1 1) = 5 := by
    rw [hdt, pyInt, if_pos (by norm_num), Int.floor_eq_iff]
    norm_num
  exact claim_C8_amended [1, 0, 0] [1, 1, 1, 1, 1] 10 5 1 0 1 1 1 1 hmv
    (by norm_num) (by rw [hdt]; norm_num) (by rw [hnt]; norm_num)
    (by norm_num) (by norm_num)

end SPLM
